import Mathlib

set_option linter.unusedSectionVars false

/-!
Verification of the theanets optimization core (`theanets/trainer.py`).

We shallowly embed the trainer's data model and operations over an
arbitrary linear ordered field `α` (instantiated at `ℚ` for concrete
evaluations and at `ℝ` where the L2 norm's square root matters).
Parameter tensors are modelled by their flattened element lists
(`List α`), an ordered collection of tensors by `List (List α)`.
External collaborators (the compiled theano functions `f_eval`,
`f_grad`, the dataset, `np.linalg.norm`'s square root, the scipy
minimizer, and keyboard interrupts) enter as explicit oracle
parameters, exactly at the points where the source calls out to them.
-/

namespace Theanets

variable {α : Type} [LinearOrderedField α] {β : Type}

/-! ## ParameterVector: `Trainer.flat_to_arrays` / `Trainer.arrays_to_flat` -/

/-- One step of the slice assignment `x[start:start+count] = vals` used by
`arrays_to_flat` (numpy semantics for an exact-length right-hand side). -/
def setSlice (x : List α) (start : ℕ) (vals : List α) : List α :=
  x.take start ++ vals ++ x.drop (start + vals.length)

/-- The loop of `Trainer.arrays_to_flat`: writes each array into the flat
buffer at its running offset. -/
def arraysToFlatGo : List (List α × ℕ) → List α → ℕ → List α
  | [], x, _ => x
  | (a, c) :: rest, x, start => arraysToFlatGo rest (setSlice x start a) (start + c)

/-- Embeds `Trainer.arrays_to_flat`: a zero buffer of length `sum(counts)` is
allocated and each array is written at its offset, in declared order. -/
def arrays_to_flat (counts : List ℕ) (arrays : List (List α)) : List α :=
  arraysToFlatGo (arrays.zip counts) (List.replicate counts.sum 0) 0

/-- The loop of `Trainer.flat_to_arrays`: slices `x[start:start+count]` for
each declared count.  `none` models the failure cases of the source: a
slice that cannot be reshaped to the declared element count, or the final
`assert start == len(x)`. -/
def flatToArraysGo : List ℕ → ℕ → List α → Option (List (List α))
  | [], start, x => if start = x.length then some [] else none
  | c :: cs, start, x =>
      let a := (x.drop start).take c
      if a.length = c then (flatToArraysGo cs (start + c) x).map (fun r => a :: r)
      else none

/-- Embeds `Trainer.flat_to_arrays`. -/
def flat_to_arrays (counts : List ℕ) (x : List α) : Option (List (List α)) :=
  flatToArraysGo counts 0 x

/-! ## GradientPolicy: `SGD._maybe_rescale_gradient` and `SGD._apply_delta` -/

/-- Sum of squared entries (the square of `np.linalg.norm`). -/
def sumsq (g : List α) : α := (g.map (fun x => x * x)).sum

/-- Embeds `np.linalg.norm`, parameterized by the square-root function of the
ambient field (instantiated with `Real.sqrt` over `ℝ`). -/
def norm2 (sqrtFn : α → α) (g : List α) : α := sqrtFn (sumsq g)

/-- Embeds `SGD._maybe_rescale_gradient`: `l = norm(g)`; if `l > max_gradient_norm`
then `g := g / l * max_gradient_norm`; returns `(g, l)` with `l` the
original norm in both branches. -/
def maybe_rescale_gradient (sqrtFn : α → α) (max_gradient_norm : α)
    (g : List α) : List α × α :=
  let l := norm2 sqrtFn g
  if l > max_gradient_norm then (g.map (fun v => v / l * max_gradient_norm), l)
  else (g, l)

/-- Embeds `SGD._apply_delta`: `v += delta`, and when `clip_params_at_zero` is set,
entries with `(pos0 & neg1) | (neg0 & pos1)` are forced to zero. -/
def apply_delta (clip_params_at_zero : Bool) (param delta : List α) : List α :=
  List.zipWith (fun v d =>
    let v1 := v + d
    if clip_params_at_zero ∧ ((v > 0 ∧ v1 < 0) ∨ (v < 0 ∧ v1 > 0)) then 0 else v1)
    param delta

/-! ## ConvergenceTracker: `Trainer.__init__` best-state fields and
`Trainer.evaluate` -/

/-- The best-so-far state held by a `Trainer` (`best_cost`, `best_iter`,
`best_params`). -/
structure TrainerState (α : Type) where
  best_cost : α
  best_iter : ℤ
  best_params : List (List α)
  deriving DecidableEq

/-- The three outcomes of `Trainer.evaluate`: normal return after an
improvement, `NoImprovementError`, `PatienceElapsedError`. -/
inductive EvalSignal
  | improved
  | noImprovement
  | patienceElapsed
  deriving DecidableEq

/-- The best-state initialization in `Trainer.__init__`:
`best_cost = 1e100`, `best_iter = 0`, `best_params` a copy of the model's
current parameter values. -/
def trainer_init (params : List (List α)) : TrainerState α :=
  { best_cost := (10 : α) ^ 100, best_iter := 0, best_params := params }

/-- Embeds `Trainer.evaluate`.  `cost0` is the mean primary validation cost
`costs[0]` (the averaging of the external `f_eval` outputs over the
validation set is folded into this input), `params` the model's current
parameter values (snapshotted on improvement).  The improvement update
happens first; the patience check then uses the updated `best_iter` and
takes priority over `NoImprovementError`. -/
def evaluate (patience : ℤ) (min_improvement : α) (iteration : ℤ)
    (cost0 : α) (params : List (List α)) (s : TrainerState α) :
    TrainerState α × EvalSignal :=
  let improvement := s.best_cost - cost0 > s.best_cost * min_improvement
  let s' := if improvement then
      ({ best_cost := cost0, best_iter := iteration, best_params := params } :
        TrainerState α)
    else s
  if iteration - s'.best_iter > patience then (s', .patienceElapsed)
  else if improvement then (s', .improved)
  else (s', .noImprovement)

/-- A sequence of `evaluate` calls on one tracker, threading the state
(each list entry is `(iteration, primary cost, current params)`). -/
def evaluateFold (patience : ℤ) (min_improvement : α) :
    List (ℤ × α × List (List α)) → TrainerState α → TrainerState α
  | [], s => s
  | (it, c, p) :: rest, s =>
      evaluateFold patience min_improvement rest
        (evaluate patience min_improvement it c p s).1

/-! ## UpdateRule: `SGD._nag` and `SGD._sgd`

The per-batch loops mutate the model's parameters (and the velocity
buffers) in place while iterating over `zip`s of the parameter,
velocity, gradient, and move lists; `zip` stops at the shortest list and
the entries beyond it stay untouched.  The embedding threads the lists
explicitly and returns the untouched tails unchanged. -/

/-- First loop of `SGD._nag`: for each `(param, vel)` pair,
`u = momentum * vel`, the parameter is advanced in place by `u`, and `u`
is recorded in `moves`.  Returns (advanced params, moves). -/
def nagPhase1 (momentum : α) : List (List α) → List (List α) →
    List (List α) × List (List α)
  | p :: ps, vel :: vs =>
      let u := vel.map (fun x => momentum * x)
      let r := nagPhase1 momentum ps vs
      (List.zipWith (· + ·) p u :: r.1, u :: r.2)
  | ps, _ => (ps, [])

/-- Second loop of `SGD._nag`: for `p, v, g, u` in
`zip(params, velocities, grads, moves)`, rescale `g`, apply
`d = -learning_rate * grad` through `_apply_delta`, and set
`v[:] = u + d`.  Returns (new params, new velocities, original gradient
norms). -/
def nagPhase2 (sqrtFn : α → α) (learning_rate max_gradient_norm : α)
    (clip : Bool) : List (List α) → List (List α) → List (List α) →
    List (List α) → List (List α) × List (List α) × List α
  | p :: ps, _v :: vs, g :: gs, u :: us =>
      let gl := maybe_rescale_gradient sqrtFn max_gradient_norm g
      let d := gl.1.map (fun x => -learning_rate * x)
      let p' := apply_delta clip p d
      let v' := List.zipWith (· + ·) u d
      let r := nagPhase2 sqrtFn learning_rate max_gradient_norm clip ps vs gs us
      (p' :: r.1, v' :: r.2.1, gl.2 :: r.2.2)
  | ps, vs, _, _ => (ps, vs, [])

/-- One minibatch of `SGD._nag`: phase 1 advances the parameters to the
lookahead position, the gradient oracle (`self.f_grad`) is then called on
the advanced parameters, and phase 2 applies the deltas and updates the
velocities. -/
def nagBatch (sqrtFn : α → α) (momentum learning_rate max_gradient_norm : α)
    (clip : Bool) (f_grad_at : List (List α) → List (List α))
    (params velocities : List (List α)) :
    List (List α) × List (List α) × List α :=
  let r1 := nagPhase1 momentum params velocities
  let gs := f_grad_at r1.1
  nagPhase2 sqrtFn learning_rate max_gradient_norm clip r1.1 velocities gs r1.2

/-- The loop of `SGD._sgd` over `zip(self.params, self.f_grad(*x))`:
rescale each gradient and apply `-learning_rate * grad` through
`_apply_delta`.  Returns (new params, original gradient norms). -/
def sgdBatchStep (sqrtFn : α → α) (learning_rate max_gradient_norm : α)
    (clip : Bool) : List (List α) → List (List α) →
    List (List α) × List α
  | p :: ps, g :: gs =>
      let gl := maybe_rescale_gradient sqrtFn max_gradient_norm g
      let p' := apply_delta clip p (gl.1.map (fun x => -learning_rate * x))
      let r := sgdBatchStep sqrtFn learning_rate max_gradient_norm clip ps gs
      (p' :: r.1, gl.2 :: r.2)
  | ps, _ => (ps, [])

/-- Embeds `SGD._nag` over a whole training set: one `nagBatch` per batch, in
order, threading parameters and velocities.  The gradient oracle takes
the batch and the current (lookahead) parameter values. -/
def nagRun (sqrtFn : α → α) (momentum learning_rate max_gradient_norm : α)
    (clip : Bool) (f_grad : β → List (List α) → List (List α)) :
    List β → List (List α) → List (List α) →
    List (List α) × List (List α)
  | [], params, velocities => (params, velocities)
  | b :: bs, params, velocities =>
      let r := nagBatch sqrtFn momentum learning_rate max_gradient_norm clip
        (f_grad b) params velocities
      nagRun sqrtFn momentum learning_rate max_gradient_norm clip f_grad bs
        r.1 r.2.1

/-- Embeds `SGD._sgd` over a whole training set: one `sgdBatchStep` per batch,
in order (the velocity buffers are never touched on this path). -/
def sgdRun (sqrtFn : α → α) (learning_rate max_gradient_norm : α)
    (clip : Bool) (f_grad : β → List (List α) → List (List α)) :
    List β → List (List α) → List (List α)
  | [], params => params
  | b :: bs, params =>
      let r := sgdBatchStep sqrtFn learning_rate max_gradient_norm clip params
        (f_grad b params)
      sgdRun sqrtFn learning_rate max_gradient_norm clip f_grad bs r.1

/-! ## TrainingLoop: `SGD.train` and `Scipy.train` -/

/-- Embeds `Trainer.update_params`: `for param, target in zip(self.params, targets):
param.set_value(target)` — parameters beyond `len(targets)` keep their
values, targets beyond `len(params)` are ignored. -/
def update_params (params targets : List (List α)) : List (List α) :=
  targets.take params.length ++ params.drop targets.length

/-- Configuration of an `SGD` trainer (keyword arguments of
`Trainer.__init__` and `SGD.__init__`; `learning_rate` is the initial
value of the mutable rate). -/
structure SGDConfig (α : Type) where
  validation_frequency : ℕ
  iterations : ℕ
  patience : ℤ
  min_improvement : α
  momentum : α
  max_gradient_norm : α
  learning_rate : α
  learning_rate_decay : α
  clip_params_at_zero : Bool

/-- The mutable state of one `SGD.train` run: the model's parameters,
the tracker's best-so-far fields, the (annealed) learning rate, and the
velocity buffers. -/
structure SGDState (α : Type) where
  params : List (List α)
  tracker : TrainerState α
  learning_rate : α
  velocities : List (List α)
  deriving DecidableEq

/-- How a training run left its loop. -/
inductive ExitReason
  | exhausted
  | interrupted (i : ℕ)
  | patienceElapsed (i : ℕ)
  deriving DecidableEq

/-- One full pass over the training set through the selected update rule:
`learn = self._nag if self.momentum > 0 else self._sgd`. -/
def learnPass (cfg : SGDConfig α) (sqrtFn : α → α)
    (f_grad : β → List (List α) → List (List α)) (batches : List β)
    (s : SGDState α) : SGDState α :=
  if cfg.momentum > 0 then
    let r := nagRun sqrtFn cfg.momentum s.learning_rate cfg.max_gradient_norm
      cfg.clip_params_at_zero f_grad batches s.params s.velocities
    { s with params := r.1, velocities := r.2 }
  else
    let p := sgdRun sqrtFn s.learning_rate cfg.max_gradient_norm
      cfg.clip_params_at_zero f_grad batches s.params
    { s with params := p }

/-- The validation phase of one `SGD.train` iteration (`if not i %
self.validation_frequency: try: self.evaluate(i, valid_set) ...`).
`inl` is a `break` out of the loop (interrupt or patience), `inr` the
continuing state together with the evaluate events that occurred. -/
def sgdEvalPhase (cfg : SGDConfig α) (f_valid : ℕ → List (List α) → α)
    (intEval : ℕ → Bool) (i : ℕ) (s : SGDState α) :
    (SGDState α × ExitReason × List (ℕ × EvalSignal)) ⊕
      (SGDState α × List (ℕ × EvalSignal)) :=
  if i % cfg.validation_frequency = 0 then
    if intEval i then Sum.inl (s, .interrupted i, [])
    else
      let r := evaluate cfg.patience cfg.min_improvement (i : ℤ)
        (f_valid i s.params) s.params s.tracker
      match r.2 with
      | .patienceElapsed =>
          Sum.inl ({ s with tracker := r.1 }, .patienceElapsed i,
            [(i, EvalSignal.patienceElapsed)])
      | .noImprovement =>
          let lr := s.learning_rate * (1 - cfg.learning_rate_decay)
          Sum.inr ({ s with tracker := r.1, learning_rate := lr },
            [(i, EvalSignal.noImprovement)])
      | .improved =>
          Sum.inr ({ s with tracker := r.1 }, [(i, EvalSignal.improved)])
  else Sum.inr (s, [])

/-- The iteration loop of `SGD.train`, with the remaining iteration budget
as fuel.  `intEval i` models a `KeyboardInterrupt` caught around
`self.evaluate` at iteration `i`; `intPass i = some k` one caught during
the update pass after `k` batches (partial work is kept, then the loop
breaks).  Returns the loop-exit state, the exit reason, and the trace of
evaluate events. -/
def sgdLoop (cfg : SGDConfig α) (sqrtFn : α → α)
    (f_valid : ℕ → List (List α) → α)
    (f_grad : β → List (List α) → List (List α)) (batches : List β)
    (intEval : ℕ → Bool) (intPass : ℕ → Option ℕ) :
    ℕ → ℕ → SGDState α → SGDState α × ExitReason × List (ℕ × EvalSignal)
  | 0, _, s => (s, .exhausted, [])
  | fuel + 1, i, s =>
    match sgdEvalPhase cfg f_valid intEval i s with
    | Sum.inl out => out
    | Sum.inr (s1, tr0) =>
      match intPass i with
      | some k =>
          (learnPass cfg sqrtFn f_grad (batches.take k) s1, .interrupted i, tr0)
      | none =>
          let r := sgdLoop cfg sqrtFn f_valid f_grad batches intEval intPass
            fuel (i + 1) (learnPass cfg sqrtFn f_grad batches s1)
          (r.1, r.2.1, tr0 ++ r.2.2)

/-- Embeds `SGD.train`: initialize zero velocities, run the iteration loop, and
unconditionally restore `self.update_params(self.best_params)` on exit. -/
def sgd_train (cfg : SGDConfig α) (sqrtFn : α → α)
    (f_valid : ℕ → List (List α) → α)
    (f_grad : β → List (List α) → List (List α)) (batches : List β)
    (intEval : ℕ → Bool) (intPass : ℕ → Option ℕ)
    (params0 : List (List α)) :
    SGDState α × ExitReason × List (ℕ × EvalSignal) :=
  let init : SGDState α :=
    { params := params0, tracker := trainer_init params0,
      learning_rate := cfg.learning_rate,
      velocities := params0.map (fun p => p.map (fun _ => 0)) }
  let r := sgdLoop cfg sqrtFn f_valid f_grad batches intEval intPass
    cfg.iterations 0 init
  ({ r.1 with params := update_params r.1.params r.1.tracker.best_params },
    r.2.1, r.2.2)

/-- The mutable state of one `Scipy.train` run. -/
structure ScipyState (α : Type) where
  params : List (List α)
  tracker : TrainerState α
  deriving DecidableEq

/-- The iteration loop of `Scipy.train`: evaluate every iteration
(`NoImprovementError` is passed over, no learning rate exists), then run
the external minimizer from the flattened best parameters and commit its
result into the model.  `minimize i x0` is the external
`scipy.optimize.minimize(...).x` oracle; a result whose length does not
match the declared counts would raise in the source (`flat_to_arrays`'s
assert) — the `none` branch keeps the parameters and stands only for
runs whose minimizer honours its contract. -/
def scipyLoop (patience : ℤ) (min_improvement : α) (counts : List ℕ)
    (f_valid : ℕ → List (List α) → α) (minimize : ℕ → List α → List α)
    (intEval intMin : ℕ → Bool) :
    ℕ → ℕ → ScipyState α → ScipyState α × ExitReason
  | 0, _, s => (s, .exhausted)
  | fuel + 1, i, s =>
    if intEval i then (s, .interrupted i)
    else
      let r := evaluate patience min_improvement (i : ℤ) (f_valid i s.params)
        s.params s.tracker
      let s1 : ScipyState α := { s with tracker := r.1 }
      match r.2 with
      | .patienceElapsed => (s1, .patienceElapsed i)
      | _ =>
        if intMin i then (s1, .interrupted i)
        else
          let x := minimize i (arrays_to_flat counts s1.tracker.best_params)
          let params' := match flat_to_arrays counts x with
            | some arrays => update_params s1.params arrays
            | none => s1.params
          scipyLoop patience min_improvement counts f_valid minimize intEval
            intMin fuel (i + 1) { s1 with params := params' }

/-- Embeds `Scipy.train`: run the iteration loop, then unconditionally restore
`self.update_params(self.best_params)` on exit. -/
def scipy_train (patience : ℤ) (min_improvement : α) (counts : List ℕ)
    (iterations : ℕ) (f_valid : ℕ → List (List α) → α)
    (minimize : ℕ → List α → List α) (intEval intMin : ℕ → Bool)
    (params0 : List (List α)) : ScipyState α × ExitReason :=
  let r := scipyLoop patience min_improvement counts f_valid minimize intEval
    intMin iterations 0 { params := params0, tracker := trainer_init params0 }
  ({ r.1 with params := update_params r.1.params r.1.tracker.best_params },
    r.2)

/-! ## Helper lemmas -/

lemma sumsq_map_mul (c : α) (g : List α) :
    sumsq (g.map fun x => c * x) = c ^ 2 * sumsq g := by
  induction g with
  | nil => simp [sumsq]
  | cons a t ih =>
      simp only [sumsq, List.map_cons, List.sum_cons] at ih ⊢
      rw [ih]; ring

lemma sumsq_nonneg (g : List α) : 0 ≤ sumsq g := by
  induction g with
  | nil => simp [sumsq]
  | cons a t ih =>
      simp only [sumsq, List.map_cons, List.sum_cons] at ih ⊢
      nlinarith [mul_self_nonneg a]

/-! ## C9: `SGD._apply_delta` -/

/-- C9. `apply_delta` sets each element to `old + delta`; with
`clip_params_at_zero` on, an element whose sign flips through zero (was
positive and becomes ≤ 0, or was negative and becomes ≥ 0) ends up
exactly zero, and an element with no sign crossing receives
`old + delta` unchanged. -/
theorem apply_delta_spec (v d : List α) (i : ℕ) (vi di : α)
    (hv : v[i]? = some vi) (hd : d[i]? = some di) :
    (apply_delta false v d)[i]? = some (vi + di)
    ∧ ((vi > 0 ∧ vi + di ≤ 0) ∨ (vi < 0 ∧ vi + di ≥ 0) →
        (apply_delta true v d)[i]? = some 0)
    ∧ (¬((vi > 0 ∧ vi + di ≤ 0) ∨ (vi < 0 ∧ vi + di ≥ 0)) →
        (apply_delta true v d)[i]? = some (vi + di)) := by
  have key : ∀ clip : Bool, (apply_delta clip v d)[i]? =
      some (if clip ∧ ((vi > 0 ∧ vi + di < 0) ∨ (vi < 0 ∧ vi + di > 0))
        then 0 else vi + di) := by
    intro clip
    unfold apply_delta
    rw [List.getElem?_zipWith', hv, hd]
    rfl
  refine ⟨?_, ?_, ?_⟩
  · rw [key]; simp
  · intro hcross
    rw [key]
    congr 1
    split_ifs with hc
    · rfl
    · simp only [true_and, not_or, not_and, not_lt] at hc
      rcases hcross with ⟨h1, h2⟩ | ⟨h1, h2⟩
      · linarith [hc.1 h1]
      · linarith [hc.2 h1]
  · intro hcross
    rw [key]
    congr 1
    rw [if_neg]
    rintro ⟨-, ⟨h1, h2⟩ | ⟨h1, h2⟩⟩
    · exact hcross (Or.inl ⟨h1, le_of_lt h2⟩)
    · exact hcross (Or.inr ⟨h1, le_of_lt h2⟩)

/-- Witness for C9 at a concrete sign-crossing input. -/
theorem apply_delta_spec_witness :
    (apply_delta true [(1 : ℚ)] [-2])[0]? = some 0
    ∧ (apply_delta false [(1 : ℚ)] [-2])[0]? = some ((1 : ℚ) + -2) := by
  have h := apply_delta_spec (α := ℚ) [1] [-2] 0 1 (-2) (by decide) (by decide)
  exact ⟨h.2.1 (by norm_num), h.1⟩

/-! ## C7 / C8: `Trainer.evaluate` -/

/-- The state component of `evaluate`: the best state is replaced exactly
when the improvement criterion holds. -/
lemma evaluate_fst (pat : ℤ) (mi : α) (it : ℤ) (c : α) (p : List (List α))
    (s : TrainerState α) :
    (evaluate pat mi it c p s).1 =
      if s.best_cost - c > s.best_cost * mi then ⟨c, it, p⟩ else s := by
  simp only [evaluate]
  split_ifs <;> rfl

/-- The signal component of `evaluate`: the patience check runs on the
post-update `best_iter` and wins over `noImprovement`. -/
lemma evaluate_snd (pat : ℤ) (mi : α) (it : ℤ) (c : α) (p : List (List α))
    (s : TrainerState α) :
    (evaluate pat mi it c p s).2 =
      if it - (if s.best_cost - c > s.best_cost * mi then it else s.best_iter) >
          pat then .patienceElapsed
      else if s.best_cost - c > s.best_cost * mi then .improved
      else .noImprovement := by
  simp only [evaluate]
  split_ifs <;> simp_all

/-- Lemma: `evaluate` raises patience exactly when the raw iteration distance to
the (post-update) `best_iter` exceeds `patience`. -/
lemma evaluate_patienceElapsed_iff (pat : ℤ) (mi : α) (it : ℤ) (c : α)
    (p : List (List α)) (s : TrainerState α) :
    (evaluate pat mi it c p s).2 = .patienceElapsed ↔
      it - (evaluate pat mi it c p s).1.best_iter > pat := by
  rw [evaluate_snd, evaluate_fst]
  by_cases h : s.best_cost - c > s.best_cost * mi
  · simp only [if_pos h]
    by_cases hp : it - it > pat <;> simp [hp]
  · simp only [if_neg h]
    by_cases hp : it - s.best_iter > pat <;> simp [hp]

/-- C7. `evaluate` signals `PatienceElapsed` exactly when
`iteration − best_iteration > patience` with `best_iteration` taken
after the call's own improvement update; the best state is updated on
improvement (and left alone otherwise) before the patience check, so
`PatienceElapsed` takes priority over `NoImprovement`. -/
theorem evaluate_patience_spec (pat : ℤ) (mi : α) (it : ℤ) (c : α)
    (p : List (List α)) (s : TrainerState α) :
    ((evaluate pat mi it c p s).2 = .patienceElapsed ↔
      it - (evaluate pat mi it c p s).1.best_iter > pat)
    ∧ (s.best_cost - c > s.best_cost * mi →
        (evaluate pat mi it c p s).1 = ⟨c, it, p⟩)
    ∧ (¬(s.best_cost - c > s.best_cost * mi) →
        (evaluate pat mi it c p s).1 = s) := by
  refine ⟨evaluate_patienceElapsed_iff pat mi it c p s, ?_, ?_⟩ <;>
    rw [evaluate_fst]
  · intro h; rw [if_pos h]
  · intro h; rw [if_neg h]

/-- Witness for C7: a stale tracker (`best_iter = 0`, no improvement at
iteration 7 with patience 2) triggers `PatienceElapsed` and leaves the
best state untouched. -/
theorem evaluate_patience_spec_witness :
    (evaluate 2 (0 : ℚ) 7 10 [] ⟨5, 0, []⟩).2 = .patienceElapsed
    ∧ (evaluate 2 (0 : ℚ) 7 10 [] ⟨5, 0, []⟩).1 = ⟨5, 0, []⟩ := by
  have h := evaluate_patience_spec (α := ℚ) 2 0 7 10 [] ⟨5, 0, []⟩
  refine ⟨h.1.mpr ?_, h.2.2 (by norm_num)⟩
  rw [evaluate_fst]
  norm_num

/-- C8, amended. Across `evaluate` calls, `best_cost` is replaced by
the primary cost exactly when the improvement criterion
`best_cost − primary_cost > best_cost × min_improvement` holds and is
unchanged otherwise, and `best_iteration` is updated exactly on
criterion-holding calls; `best_cost` is non-increasing whenever
`min_improvement = 0`, or `min_improvement ≥ 0` and the current
`best_cost` is nonnegative (for `min_improvement > 0` and a negative
`best_cost` it can increase — see the counterexample). -/
theorem evaluate_monotone_spec (pat : ℤ) (mi : α) (it : ℤ) (c : α)
    (p : List (List α)) (s : TrainerState α) :
    ((evaluate pat mi it c p s).1.best_cost =
      if s.best_cost - c > s.best_cost * mi then c else s.best_cost)
    ∧ ((evaluate pat mi it c p s).1.best_iter =
      if s.best_cost - c > s.best_cost * mi then it else s.best_iter)
    ∧ (0 ≤ mi → (0 ≤ s.best_cost ∨ mi = 0) →
        (evaluate pat mi it c p s).1.best_cost ≤ s.best_cost) := by
  rw [evaluate_fst]
  refine ⟨by split_ifs <;> rfl, by split_ifs <;> rfl, ?_⟩
  intro hmi hbc
  split_ifs with h1
  · show c ≤ s.best_cost
    rcases hbc with hbc | hbc
    · nlinarith
    · subst hbc; rw [mul_zero] at h1; linarith
  · rfl

/-- Witness for C8's amended monotonicity at a concrete call. -/
theorem evaluate_monotone_spec_witness :
    (evaluate 100 (0 : ℚ) 1 3 [] ⟨5, 0, []⟩).1.best_cost ≤ 5 := by
  have h := evaluate_monotone_spec (α := ℚ) 100 0 1 3 [] ⟨5, 0, []⟩
  exact h.2.2 le_rfl (Or.inr rfl)

/-- Counterexample for C8 as stated: with `min_improvement = 1/2 ≥ 0` and
negative validation costs, a genuine call sequence from the freshly
initialized tracker makes `best_cost` increase from `-10` to `-6`. -/
theorem evaluate_monotone_counterexample :
    (evaluateFold 100 ((1 : ℚ)/2) [(0, -10, [])]
      (trainer_init [])).best_cost = -10
    ∧ (evaluateFold 100 ((1 : ℚ)/2) [(0, -10, []), (1, -6, [])]
      (trainer_init [])).best_cost = -6
    ∧ ¬((-6 : ℚ) ≤ -10) := by
  refine ⟨?_, ?_, by norm_num⟩ <;>
    norm_num [evaluateFold, evaluate, trainer_init]

/-! ## C3: `SGD._maybe_rescale_gradient` over `ℝ` -/

lemma norm2_real_nonneg (g : List ℝ) : 0 ≤ norm2 Real.sqrt g :=
  Real.sqrt_nonneg _

lemma norm2_real_map_mul (c : ℝ) (g : List ℝ) :
    norm2 Real.sqrt (g.map fun x => c * x) = |c| * norm2 Real.sqrt g := by
  unfold norm2
  rw [sumsq_map_mul, Real.sqrt_mul (sq_nonneg c), Real.sqrt_sq_eq_abs]

/-- C3. For a positive bound, `_maybe_rescale_gradient` returns the
original L2 norm in both branches; when the norm exceeds the bound the
returned tensor is a positive scalar multiple of the input with L2 norm
exactly the bound, and otherwise the tensor is returned unchanged. -/
theorem rescale_spec (mn : ℝ) (g : List ℝ) (hmn : 0 < mn) :
    (maybe_rescale_gradient Real.sqrt mn g).2 = norm2 Real.sqrt g
    ∧ (norm2 Real.sqrt g > mn →
        norm2 Real.sqrt (maybe_rescale_gradient Real.sqrt mn g).1 = mn
        ∧ ∃ c : ℝ, 0 < c ∧
          (maybe_rescale_gradient Real.sqrt mn g).1 = g.map fun x => c * x)
    ∧ (norm2 Real.sqrt g ≤ mn → (maybe_rescale_gradient Real.sqrt mn g).1 = g) := by
  unfold maybe_rescale_gradient
  set L := norm2 Real.sqrt g with hL
  by_cases h : L > mn
  · have hL0 : 0 < L := lt_trans hmn h
    have hmap : (g.map fun v => v / L * mn) = g.map fun x => (mn / L) * x := by
      apply List.map_congr_left
      intro a _
      field_simp
      ring
    refine ⟨by simp [h], fun _ => ?_, fun hle => absurd h (not_lt_of_le hle)⟩
    simp only [if_pos h]
    constructor
    · rw [hmap, norm2_real_map_mul, ← hL,
        abs_of_pos (div_pos hmn hL0), div_mul_cancel₀ _ (ne_of_gt hL0)]
    · exact ⟨mn / L, div_pos hmn hL0, hmap⟩
  · refine ⟨by simp [h], fun hgt => absurd hgt h, fun _ => by simp [h]⟩

/-- Witness for C3: the spec's own scenario, gradient `(3, 4)` with
`max_gradient_norm = 1` (its norm is `√25 = 5 > 1`, so it is scaled to
`(3/5, 4/5)`). -/
theorem rescale_spec_witness :
    (maybe_rescale_gradient Real.sqrt 1 [3, 4]).2 = norm2 Real.sqrt [3, 4]
    ∧ norm2 Real.sqrt (maybe_rescale_gradient Real.sqrt 1 [3, 4]).1 = 1 := by
  have h5 : norm2 Real.sqrt [(3 : ℝ), 4] = 5 := by
    unfold norm2 sumsq
    rw [show ((([(3 : ℝ), 4].map fun x => x * x)).sum) = 25 by norm_num,
      show (25 : ℝ) = 5 ^ 2 by norm_num, Real.sqrt_sq (by norm_num)]
  have h := rescale_spec 1 [3, 4] one_pos
  exact ⟨h.1, (h.2.1 (by rw [h5]; norm_num)).1⟩

/-! ## C2: `arrays_to_flat` / `flat_to_arrays` round trip -/

lemma setSlice_length (x : List α) (start : ℕ) (a : List α)
    (h : start + a.length ≤ x.length) :
    (setSlice x start a).length = x.length := by
  unfold setSlice
  simp only [List.length_append, List.length_take, List.length_drop]
  omega

lemma setSlice_take (x : List α) (start : ℕ) (a : List α)
    (h : start + a.length ≤ x.length) :
    (setSlice x start a).take (start + a.length) = x.take start ++ a := by
  unfold setSlice
  have h1 : (x.take start ++ a).length = start + a.length := by
    simp only [List.length_append, List.length_take]
    omega
  rw [← h1, List.take_left]

lemma setSlice_drop_add (x : List α) (start : ℕ) (a : List α) (k : ℕ)
    (h : start + a.length ≤ x.length) :
    (setSlice x start a).drop (start + a.length + k) =
      x.drop (start + a.length + k) := by
  unfold setSlice
  have h1 : (x.take start ++ a).length = start + a.length := by
    simp only [List.length_append, List.length_take]
    omega
  rw [← List.drop_drop, ← h1, List.drop_left, h1, List.drop_drop]

/-- Under the declared shapes, the slice-writing loop of `arrays_to_flat`
produces the concatenation of the arrays in order (with the buffer's
prefix and suffix untouched). -/
lemma arraysToFlatGo_eq (pairs : List (List α × ℕ)) :
    ∀ (x : List α) (start : ℕ),
      (∀ p ∈ pairs, (p.1 : List α).length = p.2) →
      start + (pairs.map Prod.snd).sum ≤ x.length →
      arraysToFlatGo pairs x start =
        x.take start ++ (pairs.map Prod.fst).flatten ++
          x.drop (start + (pairs.map Prod.snd).sum) := by
  induction pairs with
  | nil =>
      intro x start _ _
      simp [arraysToFlatGo]
  | cons hd tl ih =>
      intro x start hlen hle
      obtain ⟨a, c⟩ := hd
      have hac : a.length = c := hlen (a, c) (List.mem_cons_self _ _)
      simp only [List.map_cons, List.sum_cons] at hle
      have hfit : start + a.length ≤ x.length := by omega
      have hslen := setSlice_length x start a hfit
      simp only [arraysToFlatGo]
      rw [ih (setSlice x start a) (start + c)
        (fun p hp => hlen p (List.mem_cons_of_mem _ hp)) (by omega)]
      rw [show start + c = start + a.length by omega]
      rw [setSlice_take x start a hfit]
      rw [show start + a.length + (tl.map Prod.snd).sum =
        start + a.length + (tl.map Prod.snd).sum from rfl]
      rw [setSlice_drop_add x start a _ hfit]
      simp only [List.map_cons, List.flatten_cons, List.sum_cons]
      rw [show start + (c + (tl.map Prod.snd).sum) =
        start + a.length + (tl.map Prod.snd).sum by omega]
      simp [List.append_assoc]

lemma map_length_of_forall₂ {arrays : List (List α)} {counts : List ℕ}
    (h : List.Forall₂ (fun (a : List α) c => a.length = c) arrays counts) :
    arrays.map List.length = counts := by
  induction h with
  | nil => rfl
  | cons h _ ih => simp_all

/-- Under the declared shapes, `arrays_to_flat` is concatenation in
sequence order. -/
lemma arrays_to_flat_eq_flatten (counts : List ℕ) (arrays : List (List α))
    (h : List.Forall₂ (fun (a : List α) c => a.length = c) arrays counts) :
    arrays_to_flat counts arrays = arrays.flatten := by
  have hlen := List.Forall₂.length_eq h
  have hmem : ∀ p ∈ arrays.zip counts, (p.1 : List α).length = p.2 := by
    intro p hp
    exact (List.forall₂_iff_zip.mp h).2 (by
      obtain ⟨a, b⟩ := p
      exact hp)
  have hfst : (arrays.zip counts).map Prod.fst = arrays :=
    List.map_fst_zip _ _ (le_of_eq hlen)
  have hsnd : (arrays.zip counts).map Prod.snd = counts :=
    List.map_snd_zip _ _ (ge_of_eq hlen)
  unfold arrays_to_flat
  rw [arraysToFlatGo_eq (arrays.zip counts) _ 0 hmem
    (by rw [hsnd]; simp)]
  rw [hfst, hsnd]
  simp

/-- Lemma: `flat_to_arrays` recovers the arrays from their concatenation. -/
lemma flatToArraysGo_of_forall₂ {arrays : List (List α)} {counts : List ℕ}
    (h : List.Forall₂ (fun (a : List α) c => a.length = c) arrays counts) :
    ∀ (x : List α) (start : ℕ), x.drop start = arrays.flatten →
      x.length = start + counts.sum →
      flatToArraysGo counts start x = some arrays := by
  induction h with
  | nil =>
      intro x start _ hlen
      simp only [flatToArraysGo, List.sum_nil, Nat.add_zero] at *
      rw [if_pos hlen.symm]
  | @cons a c arrays' counts' hac htl ih =>
      intro x start hdrop hlen
      simp only [flatToArraysGo]
      have hslice : (x.drop start).take c = a := by
        rw [hdrop, List.flatten_cons, ← hac, List.take_left]
      rw [hslice, if_pos hac]
      rw [ih x (start + c) ?_ ?_]
      · rfl
      · rw [← List.drop_drop, hdrop, List.flatten_cons, ← hac, List.drop_left]
      · simp only [List.sum_cons] at hlen
        omega

/-- A flat buffer of exactly the declared total length always splits, into
chunks of the declared lengths whose concatenation is the buffer. -/
lemma flatToArraysGo_total (counts : List ℕ) :
    ∀ (x : List α) (start : ℕ), x.length = start + counts.sum →
      ∃ arrays, flatToArraysGo counts start x = some arrays
        ∧ List.Forall₂ (fun (a : List α) c => a.length = c) arrays counts
        ∧ arrays.flatten = x.drop start := by
  induction counts with
  | nil =>
      intro x start hlen
      refine ⟨[], ?_, List.Forall₂.nil, ?_⟩
      · simp only [flatToArraysGo, List.sum_nil, Nat.add_zero] at *
        rw [if_pos hlen.symm]
      · rw [List.sum_nil, Nat.add_zero] at hlen
        rw [← hlen, List.drop_length]
        rfl
  | cons c cs ih =>
      intro x start hlen
      simp only [List.sum_cons] at hlen
      have hdlen : (x.drop start).length = c + cs.sum := by
        rw [List.length_drop]
        omega
      have hslice : ((x.drop start).take c).length = c := by
        rw [List.length_take, hdlen]
        omega
      obtain ⟨arr', heq, hf, hflat⟩ := ih x (start + c) (by omega)
      refine ⟨(x.drop start).take c :: arr', ?_, .cons hslice hf, ?_⟩
      · simp only [flatToArraysGo]
        rw [hslice, if_pos rfl, heq]
        rfl
      · rw [List.flatten_cons, hflat, ← List.drop_drop,
          List.take_append_drop]

/-- C2. Under the declared shapes, `flat_to_arrays` inverts
`arrays_to_flat` element-for-element and the flat buffer's length is the
sum of the per-tensor element counts; conversely any buffer of exactly
that total length is reproduced by `arrays_to_flat` after
`flat_to_arrays`. -/
theorem flatten_roundtrip_spec (counts : List ℕ) (arrays : List (List α))
    (x : List α) :
    (List.Forall₂ (fun (a : List α) c => a.length = c) arrays counts →
      flat_to_arrays counts (arrays_to_flat counts arrays) = some arrays
      ∧ (arrays_to_flat counts arrays).length = counts.sum)
    ∧ (x.length = counts.sum →
      ∃ arrays', flat_to_arrays counts x = some arrays'
        ∧ arrays_to_flat counts arrays' = x) := by
  constructor
  · intro h
    have hflat := arrays_to_flat_eq_flatten counts arrays h
    have hlen : arrays.flatten.length = counts.sum := by
      rw [List.length_flatten, map_length_of_forall₂ h]
    refine ⟨?_, by rw [hflat]; exact hlen⟩
    unfold flat_to_arrays
    exact flatToArraysGo_of_forall₂ h _ 0 (by simp [hflat])
      (by simp [hflat, hlen])
  · intro hx
    obtain ⟨arrays', heq, hf, hflat⟩ :=
      flatToArraysGo_total counts x 0 (by simpa using hx)
    refine ⟨arrays', heq, ?_⟩
    rw [arrays_to_flat_eq_flatten counts arrays' hf, hflat]
    rfl

/-- Witness for C2 at concrete shapes `[2, 1]`. -/
theorem flatten_roundtrip_spec_witness :
    flat_to_arrays [2, 1] (arrays_to_flat [2, 1] [[(1 : ℚ), 2], [3]]) =
      some [[1, 2], [3]]
    ∧ (∃ arrays', flat_to_arrays [2, 1] [(5 : ℚ), 6, 7] = some arrays'
        ∧ arrays_to_flat [2, 1] arrays' = [5, 6, 7]) := by
  have h := flatten_roundtrip_spec [2, 1] [[(1 : ℚ), 2], [3]] [5, 6, 7]
  exact ⟨(h.1 (.cons rfl (.cons rfl .nil))).1, h.2 rfl⟩

/-! ## C4: the Nesterov step `SGD._nag` -/

lemma nagPhase1_spec (m : α) :
    ∀ (params vels : List (List α)) (i : ℕ) (p v : List α),
      params[i]? = some p → vels[i]? = some v →
      (nagPhase1 m params vels).2[i]? = some (v.map fun x => m * x)
      ∧ (nagPhase1 m params vels).1[i]? =
          some (List.zipWith (· + ·) p (v.map fun x => m * x)) := by
  intro params
  induction params with
  | nil => intro vels i p v hp; simp at hp
  | cons p0 ps ih =>
      intro vels i p v hp hv
      cases vels with
      | nil => simp at hv
      | cons v0 vs =>
          cases i with
          | zero =>
              simp only [List.getElem?_cons_zero, Option.some_inj] at hp hv
              subst hp; subst hv
              simp [nagPhase1]
          | succ n =>
              simp only [List.getElem?_cons_succ] at hp hv
              have := ih vs n p v hp hv
              simpa [nagPhase1] using this

lemma nagPhase2_spec (sqrtFn : α → α) (lr mn : α) (clip : Bool) :
    ∀ (ps vs gs us : List (List α)) (i : ℕ) (p v g u : List α),
      ps[i]? = some p → vs[i]? = some v → gs[i]? = some g → us[i]? = some u →
      (nagPhase2 sqrtFn lr mn clip ps vs gs us).1[i]? =
        some (apply_delta clip p
          ((maybe_rescale_gradient sqrtFn mn g).1.map fun x => -lr * x))
      ∧ (nagPhase2 sqrtFn lr mn clip ps vs gs us).2.1[i]? =
        some (List.zipWith (· + ·) u
          ((maybe_rescale_gradient sqrtFn mn g).1.map fun x => -lr * x)) := by
  intro ps
  induction ps with
  | nil => intro vs gs us i p v g u hp; simp at hp
  | cons p0 ps' ih =>
      intro vs gs us i p v g u hp hv hg hu
      cases vs with
      | nil => simp at hv
      | cons v0 vs' =>
          cases gs with
          | nil => simp at hg
          | cons g0 gs' =>
              cases us with
              | nil => simp at hu
              | cons u0 us' =>
                  cases i with
                  | zero =>
                      simp only [List.getElem?_cons_zero, Option.some_inj]
                        at hp hv hg hu
                      subst hp; subst hv; subst hg; subst hu
                      simp [nagPhase2]
                  | succ n =>
                      simp only [List.getElem?_cons_succ] at hp hv hg hu
                      have := ih vs' gs' us' n p v g u hp hv hg hu
                      simpa [nagPhase2] using this

/-- C4. In one `_nag` minibatch, per parameter `i`: the recorded move
is `u = momentum * velocity`, the parameter is first advanced to the
lookahead `p + u`, the gradient is the oracle's output at the advanced
parameters and is rescaled, the parameter then becomes the lookahead
updated through `_apply_delta` with `d = -learning_rate * grad`, and the
new velocity is `u + d`; batches are processed in order. -/
theorem nag_step_spec (sqrtFn : α → α) (m lr mn : α) (clip : Bool)
    (f_grad_at : List (List α) → List (List α))
    (f_grad : β → List (List α) → List (List α)) (b : β) (bs : List β)
    (params vels : List (List α)) (i : ℕ) (p v : List α)
    (hp : params[i]? = some p) (hv : vels[i]? = some v) :
    (nagPhase1 m params vels).2[i]? = some (v.map fun x => m * x)
    ∧ (nagPhase1 m params vels).1[i]? =
        some (List.zipWith (· + ·) p (v.map fun x => m * x))
    ∧ (∀ g, (f_grad_at (nagPhase1 m params vels).1)[i]? = some g →
        (nagBatch sqrtFn m lr mn clip f_grad_at params vels).1[i]? =
          some (apply_delta clip
            (List.zipWith (· + ·) p (v.map fun x => m * x))
            ((maybe_rescale_gradient sqrtFn mn g).1.map fun x => -lr * x))
        ∧ (nagBatch sqrtFn m lr mn clip f_grad_at params vels).2.1[i]? =
          some (List.zipWith (· + ·) (v.map fun x => m * x)
            ((maybe_rescale_gradient sqrtFn mn g).1.map fun x => -lr * x)))
    ∧ nagRun sqrtFn m lr mn clip f_grad (b :: bs) params vels =
        nagRun sqrtFn m lr mn clip f_grad bs
          (nagBatch sqrtFn m lr mn clip (f_grad b) params vels).1
          (nagBatch sqrtFn m lr mn clip (f_grad b) params vels).2.1 := by
  obtain ⟨hmove, hadv⟩ := nagPhase1_spec m params vels i p v hp hv
  refine ⟨hmove, hadv, ?_, rfl⟩
  intro g hg
  exact nagPhase2_spec sqrtFn lr mn clip (nagPhase1 m params vels).1 vels
    (f_grad_at (nagPhase1 m params vels).1) (nagPhase1 m params vels).2
    i _ v g _ hadv hv hg hmove

/-- Witness for C4 at a concrete input. -/
theorem nag_step_spec_witness :
    (nagBatch (fun x => x) 2 1 100 false (fun _ => [[3]])
        [[(1 : ℚ)]] [[1]]).1[0]? =
      some (apply_delta false
        (List.zipWith (· + ·) [(1 : ℚ)] ([(1 : ℚ)].map fun x => 2 * x))
        ((maybe_rescale_gradient (fun x => x) 100 [(3 : ℚ)]).1.map
          fun x => -1 * x))
    ∧ (nagBatch (fun x => x) 2 1 100 false (fun _ => [[3]])
        [[(1 : ℚ)]] [[1]]).2.1[0]? =
      some (List.zipWith (· + ·) ([(1 : ℚ)].map fun x => 2 * x)
        ((maybe_rescale_gradient (fun x => x) 100 [(3 : ℚ)]).1.map
          fun x => -1 * x)) := by
  have h := nag_step_spec (α := ℚ) (β := Unit) (fun x => x) 2 1 100 false
    (fun _ => [[3]]) (fun _ _ => [[3]]) () [] [[1]] [[1]] 0 [1] [1] rfl rfl
  exact h.2.2.1 [3] rfl

/-! ## C5: `_nag` versus `_sgd` at `momentum = 0` -/

lemma zipWith_add_map_zero_mul (p : List α) :
    ∀ v : List α, p.length ≤ v.length →
      List.zipWith (· + ·) p (v.map fun x => (0 : α) * x) = p := by
  induction p with
  | nil => intro v _; rfl
  | cons a ps ih =>
      intro v hv
      cases v with
      | nil => simp at hv
      | cons b vs =>
          simp only [List.length_cons, Nat.add_le_add_iff_right] at hv
          simp only [List.map_cons, List.zipWith_cons_cons]
          rw [zero_mul, add_zero, ih vs hv]

/-- With `momentum = 0` the lookahead phase leaves every parameter in
place and records all-zero moves. -/
lemma nagPhase1_zero (params vels : List (List α))
    (h : List.Forall₂ (fun (p v : List α) => p.length ≤ v.length) params vels) :
    (nagPhase1 0 params vels).1 = params
    ∧ (nagPhase1 0 params vels).2 = vels.map (List.map fun x => (0 : α) * x)
    ∧ vels.length = params.length := by
  induction h with
  | nil => exact ⟨rfl, rfl, rfl⟩
  | @cons p v ps vs hpv _ ih =>
      simp only [nagPhase1, List.map_cons]
      exact ⟨by rw [zipWith_add_map_zero_mul p v hpv, ih.1],
        by rw [ih.2.1], by simp [ih.2.2]⟩

lemma nagPhase2_zero_eq_sgd (sqrtFn : α → α) (lr mn : α) (clip : Bool) :
    ∀ (ps vs gs : List (List α)),
      List.Forall₂ (fun (p v : List α) => p.length ≤ v.length) ps vs →
      (nagPhase2 sqrtFn lr mn clip ps vs gs
          (vs.map (List.map fun x => (0 : α) * x))).1 =
        (sgdBatchStep sqrtFn lr mn clip ps gs).1
      ∧ List.Forall₂ (fun (p v : List α) => p.length ≤ v.length)
          (nagPhase2 sqrtFn lr mn clip ps vs gs
            (vs.map (List.map fun x => (0 : α) * x))).1
          (nagPhase2 sqrtFn lr mn clip ps vs gs
            (vs.map (List.map fun x => (0 : α) * x))).2.1 := by
  intro ps
  induction ps with
  | nil =>
      intro vs gs h
      cases h
      exact ⟨rfl, List.Forall₂.nil⟩
  | cons p ps' ih =>
      intro vs gs h
      cases h with
      | cons hpv htl =>
          rename_i v vs'
          cases gs with
          | nil => exact ⟨rfl, .cons hpv htl⟩
          | cons g gs' =>
              simp only [List.map_cons, nagPhase2, sgdBatchStep]
              obtain ⟨ih1, ih2⟩ := ih vs' gs' htl
              refine ⟨by rw [ih1], .cons ?_ ih2⟩
              simp only [apply_delta, List.length_zipWith, List.length_map]
              omega

lemma nagBatch_zero_eq_sgd (sqrtFn : α → α) (lr mn : α) (clip : Bool)
    (f_grad_at : List (List α) → List (List α)) (params vels : List (List α))
    (h : List.Forall₂ (fun (p v : List α) => p.length ≤ v.length) params vels) :
    (nagBatch sqrtFn 0 lr mn clip f_grad_at params vels).1 =
      (sgdBatchStep sqrtFn lr mn clip params (f_grad_at params)).1
    ∧ List.Forall₂ (fun (p v : List α) => p.length ≤ v.length)
        (nagBatch sqrtFn 0 lr mn clip f_grad_at params vels).1
        (nagBatch sqrtFn 0 lr mn clip f_grad_at params vels).2.1 := by
  obtain ⟨h1, h2, _⟩ := nagPhase1_zero params vels h
  simp only [nagBatch]
  rw [h1, h2]
  exact nagPhase2_zero_eq_sgd sqrtFn lr mn clip params vels
    (f_grad_at params) h

lemma nagRun_zero_eq_sgd (sqrtFn : α → α) (lr mn : α) (clip : Bool)
    (f_grad : β → List (List α) → List (List α)) :
    ∀ (batches : List β) (params vels : List (List α)),
      List.Forall₂ (fun (p v : List α) => p.length ≤ v.length) params vels →
      (nagRun sqrtFn 0 lr mn clip f_grad batches params vels).1 =
        sgdRun sqrtFn lr mn clip f_grad batches params := by
  intro batches
  induction batches with
  | nil => intro params vels _; rfl
  | cons b bs ih =>
      intro params vels h
      obtain ⟨h1, h2⟩ := nagBatch_zero_eq_sgd sqrtFn lr mn clip (f_grad b)
        params vels h
      simp only [nagRun, sgdRun]
      rw [← h1]
      exact ih _ _ h2

/-- Counterexample for C5 as stated: running the `_nag` path with
`momentum = 0` from a zero velocity, one batch with gradient `[2]` and
`learning_rate = 1` leaves the velocity buffer at `[-2]`, not zero (the
new velocity is `u + d = 0 + d = d`). -/
theorem nag_momentum_zero_counterexample :
    (nagBatch (fun x => x) (0 : ℚ) 1 100 false (fun _ => [[2]])
        [[1]] [[0]]).2.1 = [[-2]]
    ∧ [[(-2 : ℚ)]] ≠ [[0]] := by
  constructor
  · norm_num [nagBatch, nagPhase1, nagPhase2, maybe_rescale_gradient, norm2,
      sumsq, apply_delta]
  · intro h
    have := List.head_eq_of_cons_eq h
    have := List.head_eq_of_cons_eq this
    norm_num at this

/-- C5, amended. With `momentum = 0` the `_nag` path computes a zero
lookahead move for every parameter and produces exactly the same
parameter sequence as `_sgd` over every batch sequence when started from
the zero velocities `SGD.train` allocates; its velocity buffers, however,
become the last applied deltas rather than staying zero (they just never
influence the parameters).  In the code, `momentum = 0` selects the
`_sgd` path, which leaves the velocity buffers untouched. -/
theorem nag_sgd_momentum_zero_spec (sqrtFn : α → α) (lr mn : α) (clip : Bool)
    (f_grad : β → List (List α) → List (List α)) (batches : List β)
    (params0 : List (List α)) (cfg : SGDConfig α) (s : SGDState α)
    (hm : cfg.momentum = 0) :
    (nagRun sqrtFn 0 lr mn clip f_grad batches params0
        (params0.map (List.map fun _ => (0 : α)))).1 =
      sgdRun sqrtFn lr mn clip f_grad batches params0
    ∧ (nagPhase1 0 params0 (params0.map (List.map fun _ => (0 : α)))).1 =
        params0
    ∧ (nagPhase1 0 params0 (params0.map (List.map fun _ => (0 : α)))).2 =
        params0.map (List.map fun _ => (0 : α))
    ∧ (learnPass cfg sqrtFn f_grad batches s).velocities = s.velocities
    ∧ (learnPass cfg sqrtFn f_grad batches s).params =
        sgdRun sqrtFn s.learning_rate cfg.max_gradient_norm
          cfg.clip_params_at_zero f_grad batches s.params := by
  have hzero : List.Forall₂ (fun (p v : List α) => p.length ≤ v.length)
      params0 (params0.map (List.map fun _ => (0 : α))) := by
    rw [List.forall₂_map_right_iff]
    refine List.forall₂_same.mpr (fun p _ => ?_)
    simp
  have hsel : ¬cfg.momentum > 0 := by rw [hm]; exact lt_irrefl 0
  obtain ⟨hp1, hp2, _⟩ := nagPhase1_zero params0 _ hzero
  refine ⟨nagRun_zero_eq_sgd sqrtFn lr mn clip f_grad batches params0 _ hzero,
    hp1, ?_, ?_, ?_⟩
  · rw [hp2, List.map_map]
    refine List.map_congr_left (fun p _ => ?_)
    simp [Function.comp, List.map_map]
  · simp [learnPass, hsel]
  · simp [learnPass, hsel]

/-- Witness for C5's amended statement at a concrete configuration. -/
theorem nag_sgd_momentum_zero_spec_witness :
    (nagRun (fun x => x) (0 : ℚ) 1 100 false (fun _ : Unit => fun _ => [[2]])
        [()] [[1]] ([[(1 : ℚ)]].map (List.map fun _ => (0 : ℚ)))).1 =
      sgdRun (fun x => x) 1 100 false (fun _ : Unit => fun _ => [[2]])
        [()] [[1]] := by
  exact (nag_sgd_momentum_zero_spec (fun x => x) 1 100 false
    (fun _ : Unit => fun _ => [[2]]) [()] [[1]]
    ⟨3, 10, 100, 0, 0, 100, 1, 0, false⟩
    ⟨[[1]], ⟨0, 0, []⟩, 1, [[0]]⟩ rfl).1

/-! ## C1 / C10: terminal restoration of the best parameters -/

lemma nagPhase1_fst_length (m : α) :
    ∀ (ps vs : List (List α)), ((nagPhase1 m ps vs).1).length = ps.length := by
  intro ps
  induction ps with
  | nil => intro vs; cases vs <;> rfl
  | cons p ps' ih =>
      intro vs
      cases vs with
      | nil => rfl
      | cons v vs' => simp [nagPhase1, ih vs']

lemma nagPhase2_length (sqrtFn : α → α) (lr mn : α) (clip : Bool) :
    ∀ (ps vs gs us : List (List α)),
      ((nagPhase2 sqrtFn lr mn clip ps vs gs us).1).length = ps.length
      ∧ ((nagPhase2 sqrtFn lr mn clip ps vs gs us).2.1).length = vs.length := by
  intro ps
  induction ps with
  | nil => intro vs gs us; cases vs <;> cases gs <;> cases us <;> exact ⟨rfl, rfl⟩
  | cons p ps' ih =>
      intro vs gs us
      cases vs with
      | nil => exact ⟨rfl, rfl⟩
      | cons v vs' =>
          cases gs with
          | nil => exact ⟨rfl, rfl⟩
          | cons g gs' =>
              cases us with
              | nil => exact ⟨rfl, rfl⟩
              | cons u us' =>
                  obtain ⟨ih1, ih2⟩ := ih vs' gs' us'
                  exact ⟨by simp [nagPhase2, ih1], by simp [nagPhase2, ih2]⟩

lemma nagRun_length (sqrtFn : α → α) (m lr mn : α) (clip : Bool)
    (f_grad : β → List (List α) → List (List α)) :
    ∀ (batches : List β) (ps vs : List (List α)),
      ((nagRun sqrtFn m lr mn clip f_grad batches ps vs).1).length = ps.length := by
  intro batches
  induction batches with
  | nil => intro ps vs; rfl
  | cons b bs ih =>
      intro ps vs
      simp only [nagRun, nagBatch]
      rw [ih]
      rw [(nagPhase2_length sqrtFn lr mn clip _ _ _ _).1,
        nagPhase1_fst_length]

lemma sgdBatchStep_length (sqrtFn : α → α) (lr mn : α) (clip : Bool) :
    ∀ (ps gs : List (List α)),
      ((sgdBatchStep sqrtFn lr mn clip ps gs).1).length = ps.length := by
  intro ps
  induction ps with
  | nil => intro gs; cases gs <;> rfl
  | cons p ps' ih =>
      intro gs
      cases gs with
      | nil => rfl
      | cons g gs' => simp [sgdBatchStep, ih gs']

lemma sgdRun_length (sqrtFn : α → α) (lr mn : α) (clip : Bool)
    (f_grad : β → List (List α) → List (List α)) :
    ∀ (batches : List β) (ps : List (List α)),
      (sgdRun sqrtFn lr mn clip f_grad batches ps).length = ps.length := by
  intro batches
  induction batches with
  | nil => intro ps; rfl
  | cons b bs ih =>
      intro ps
      simp only [sgdRun]
      rw [ih, sgdBatchStep_length]

lemma learnPass_params_length (cfg : SGDConfig α) (sqrtFn : α → α)
    (f_grad : β → List (List α) → List (List α)) (batches : List β)
    (s : SGDState α) :
    ((learnPass cfg sqrtFn f_grad batches s).params).length = s.params.length := by
  unfold learnPass
  split_ifs <;> simp [nagRun_length, sgdRun_length]

lemma learnPass_tracker (cfg : SGDConfig α) (sqrtFn : α → α)
    (f_grad : β → List (List α) → List (List α)) (batches : List β)
    (s : SGDState α) :
    (learnPass cfg sqrtFn f_grad batches s).tracker = s.tracker := by
  unfold learnPass
  split_ifs <;> rfl

lemma update_params_length (p t : List (List α)) :
    (update_params p t).length = p.length := by
  unfold update_params
  simp only [List.length_append, List.length_take, List.length_drop]
  omega

lemma update_params_of_length_eq (p t : List (List α))
    (h : t.length = p.length) : update_params p t = t := by
  unfold update_params
  rw [h, List.drop_length, List.append_nil, ← h, List.take_length]

/-- The state an `sgdEvalPhase` hands on (either exit branch or continue
branch) keeps the model parameters and changes `best_params` at most to a
snapshot of those parameters. -/
lemma sgdEvalPhase_inv (cfg : SGDConfig α) (f_valid : ℕ → List (List α) → α)
    (intEval : ℕ → Bool) (i : ℕ) (s : SGDState α)
    (h : s.tracker.best_params.length = s.params.length) :
    (match sgdEvalPhase cfg f_valid intEval i s with
      | Sum.inl out => out.1.tracker.best_params.length = out.1.params.length
      | Sum.inr (s1, _) =>
          s1.tracker.best_params.length = s1.params.length) := by
  have hfst := evaluate_fst cfg.patience cfg.min_improvement (i : ℤ)
    (f_valid i s.params) s.params s.tracker
  simp only [sgdEvalPhase]
  split_ifs with h1 h2
  · exact h
  · rcases hsig : (evaluate cfg.patience cfg.min_improvement (i : ℤ)
      (f_valid i s.params) s.params s.tracker).2 <;>
      simp only [hsig] <;>
      (rw [hfst]; split_ifs <;> simpa)
  · exact h

/-- The loop of `SGD.train` maintains
`best_params.length = params.length`. -/
lemma sgdLoop_inv (cfg : SGDConfig α) (sqrtFn : α → α)
    (f_valid : ℕ → List (List α) → α)
    (f_grad : β → List (List α) → List (List α)) (batches : List β)
    (intEval : ℕ → Bool) (intPass : ℕ → Option ℕ) :
    ∀ (fuel i : ℕ) (s : SGDState α),
      s.tracker.best_params.length = s.params.length →
      ((sgdLoop cfg sqrtFn f_valid f_grad batches intEval intPass
          fuel i s).1.tracker.best_params).length =
        ((sgdLoop cfg sqrtFn f_valid f_grad batches intEval intPass
          fuel i s).1.params).length := by
  intro fuel
  induction fuel with
  | zero => intro i s h; exact h
  | succ n ih =>
      intro i s h
      have hphase := sgdEvalPhase_inv cfg f_valid intEval i s h
      simp only [sgdLoop]
      rcases hs : sgdEvalPhase cfg f_valid intEval i s with out | s1tr
      · rw [hs] at hphase
        exact hphase
      · obtain ⟨s1, tr0⟩ := s1tr
        rw [hs] at hphase
        rcases hp : intPass i with _ | k
        · simp only [hp]
          exact ih (i + 1) _ (by
            rw [learnPass_tracker, learnPass_params_length]
            exact hphase)
        · simp only [hp]
          rw [learnPass_tracker, learnPass_params_length]
          exact hphase

/-- The loop of `Scipy.train` maintains
`best_params.length = params.length`. -/
lemma scipyLoop_inv (patience : ℤ) (mi : α) (counts : List ℕ)
    (f_valid : ℕ → List (List α) → α) (minimize : ℕ → List α → List α)
    (intEval intMin : ℕ → Bool) :
    ∀ (fuel i : ℕ) (s : ScipyState α),
      s.tracker.best_params.length = s.params.length →
      ((scipyLoop patience mi counts f_valid minimize intEval intMin
          fuel i s).1.tracker.best_params).length =
        ((scipyLoop patience mi counts f_valid minimize intEval intMin
          fuel i s).1.params).length := by
  intro fuel
  induction fuel with
  | zero => intro i s h; exact h
  | succ n ih =>
      intro i s h
      have hfst := evaluate_fst patience mi (i : ℤ) (f_valid i s.params)
        s.params s.tracker
      have h1 : (evaluate patience mi (i : ℤ) (f_valid i s.params) s.params
          s.tracker).1.best_params.length = s.params.length := by
        rw [hfst]; split_ifs <;> simpa
      simp only [scipyLoop]
      rcases hsig : (evaluate patience mi (i : ℤ) (f_valid i s.params)
          s.params s.tracker).2 <;> simp only [hsig]
      · split_ifs with hie him
        · exact h
        · exact h1
        · rcases hcommit : flat_to_arrays counts
            (minimize i (arrays_to_flat counts (evaluate patience mi (i : ℤ)
              (f_valid i s.params) s.params s.tracker).1.best_params)) with
            _ | arrays <;>
            simp only [hcommit] <;>
            exact ih (i + 1) _ (by simp [update_params_length, h1])
      · split_ifs with hie him
        · exact h
        · exact h1
        · rcases hcommit : flat_to_arrays counts
            (minimize i (arrays_to_flat counts (evaluate patience mi (i : ℤ)
              (f_valid i s.params) s.params s.tracker).1.best_params)) with
            _ | arrays <;>
            simp only [hcommit] <;>
            exact ih (i + 1) _ (by simp [update_params_length, h1])
      · split_ifs with hie
        · exact h
        · exact h1

/-- C1. Whatever ends an `SGD.train` or `Scipy.train` run (interrupt,
patience, or the iteration budget), the final action restores the model's
parameters from the tracker's `best_params`, so on exit they equal the
best validated snapshot. -/
theorem best_restore_spec (cfg : SGDConfig α) (sqrtFn : α → α)
    (f_valid : ℕ → List (List α) → α)
    (f_grad : β → List (List α) → List (List α)) (batches : List β)
    (intEval : ℕ → Bool) (intPass : ℕ → Option ℕ)
    (patience : ℤ) (mi : α) (counts : List ℕ) (iterations : ℕ)
    (minimize : ℕ → List α → List α) (intEval2 intMin : ℕ → Bool)
    (params0 : List (List α)) :
    (sgd_train cfg sqrtFn f_valid f_grad batches intEval intPass
        params0).1.params =
      (sgd_train cfg sqrtFn f_valid f_grad batches intEval intPass
        params0).1.tracker.best_params
    ∧ (scipy_train patience mi counts iterations f_valid minimize intEval2
        intMin params0).1.params =
      (scipy_train patience mi counts iterations f_valid minimize intEval2
        intMin params0).1.tracker.best_params := by
  constructor
  · have hinv := sgdLoop_inv cfg sqrtFn f_valid f_grad batches intEval intPass
      cfg.iterations 0
      { params := params0, tracker := trainer_init params0,
        learning_rate := cfg.learning_rate,
        velocities := params0.map (fun p => p.map (fun _ => 0)) } rfl
    exact update_params_of_length_eq _ _ hinv
  · have hinv := scipyLoop_inv patience mi counts f_valid minimize intEval2
      intMin iterations 0
      { params := params0, tracker := trainer_init params0 } rfl
    exact update_params_of_length_eq _ _ hinv

/-- An `sgdEvalPhase` whose evaluate call does not improve hands every
branch the unchanged tracker. -/
lemma sgdEvalPhase_tracker_of_no_improvement (cfg : SGDConfig α)
    (f_valid : ℕ → List (List α) → α) (intEval : ℕ → Bool) (i : ℕ)
    (s : SGDState α)
    (hc : ¬(s.tracker.best_cost - f_valid i s.params >
        s.tracker.best_cost * cfg.min_improvement)) :
    (match sgdEvalPhase cfg f_valid intEval i s with
      | Sum.inl out => out.1.tracker = s.tracker
      | Sum.inr (s1, _) => s1.tracker = s.tracker) := by
  have hfst := evaluate_fst cfg.patience cfg.min_improvement (i : ℤ)
    (f_valid i s.params) s.params s.tracker
  rw [if_neg hc] at hfst
  simp only [sgdEvalPhase]
  split_ifs with h1 h2
  · rfl
  · rcases hsig : (evaluate cfg.patience cfg.min_improvement (i : ℤ)
      (f_valid i s.params) s.params s.tracker).2 <;> simp only [hsig] <;>
      exact hfst
  · rfl

/-- If the cost oracle never meets the improvement criterion against the
`1e100` sentinel, the tracker created at construction is never touched by
the loop. -/
lemma sgdLoop_tracker_of_no_improvement (cfg : SGDConfig α) (sqrtFn : α → α)
    (f_valid : ℕ → List (List α) → α)
    (f_grad : β → List (List α) → List (List α)) (batches : List β)
    (intEval : ℕ → Bool) (intPass : ℕ → Option ℕ)
    (H : ∀ (i : ℕ) (p : List (List α)),
      ¬((10 : α) ^ 100 - f_valid i p > (10 : α) ^ 100 * cfg.min_improvement)) :
    ∀ (fuel i : ℕ) (s : SGDState α), s.tracker.best_cost = (10 : α) ^ 100 →
      (sgdLoop cfg sqrtFn f_valid f_grad batches intEval intPass
        fuel i s).1.tracker = s.tracker := by
  intro fuel
  induction fuel with
  | zero => intro i s _; rfl
  | succ n ih =>
      intro i s hbc
      have hc : ¬(s.tracker.best_cost - f_valid i s.params >
          s.tracker.best_cost * cfg.min_improvement) := by
        rw [hbc]; exact H i s.params
      have hphase := sgdEvalPhase_tracker_of_no_improvement cfg f_valid
        intEval i s hc
      simp only [sgdLoop]
      rcases hs : sgdEvalPhase cfg f_valid intEval i s with out | s1tr
      · rw [hs] at hphase
        exact hphase
      · obtain ⟨s1, tr0⟩ := s1tr
        rw [hs] at hphase
        rcases hp : intPass i with _ | k
        · simp only [hp]
          rw [ih (i + 1) _ (by rw [learnPass_tracker, hphase, hbc]),
            learnPass_tracker, hphase]
        · simp only [hp]
          rw [learnPass_tracker, hphase]

/-- C10. `Trainer.__init__` seeds the tracker with the finite
sentinel `best_cost = 1e100`, `best_iter = 0`, and a snapshot of the
model's construction-time parameters; hence a run in which no evaluate
call ever signals an improvement still restores the construction-time
parameters at the end. -/
theorem trainer_init_spec (cfg : SGDConfig α) (sqrtFn : α → α)
    (f_valid : ℕ → List (List α) → α)
    (f_grad : β → List (List α) → List (List α)) (batches : List β)
    (intEval : ℕ → Bool) (intPass : ℕ → Option ℕ) (params0 : List (List α))
    (H : ∀ (i : ℕ) (p : List (List α)),
      ¬((10 : α) ^ 100 - f_valid i p > (10 : α) ^ 100 * cfg.min_improvement)) :
    (trainer_init params0 : TrainerState α).best_cost = (10 : α) ^ 100
    ∧ (trainer_init params0 : TrainerState α).best_iter = 0
    ∧ (trainer_init params0 : TrainerState α).best_params = params0
    ∧ (sgd_train cfg sqrtFn f_valid f_grad batches intEval intPass
        params0).1.params = params0 := by
  refine ⟨rfl, rfl, rfl, ?_⟩
  have htr := sgdLoop_tracker_of_no_improvement cfg sqrtFn f_valid f_grad
    batches intEval intPass H cfg.iterations 0
    { params := params0, tracker := trainer_init params0,
      learning_rate := cfg.learning_rate,
      velocities := params0.map (fun p => p.map (fun _ => 0)) } rfl
  have hinv := sgdLoop_inv cfg sqrtFn f_valid f_grad batches intEval intPass
    cfg.iterations 0
    { params := params0, tracker := trainer_init params0,
      learning_rate := cfg.learning_rate,
      velocities := params0.map (fun p => p.map (fun _ => 0)) } rfl
  show update_params _ _ = params0
  rw [update_params_of_length_eq _ _ hinv, htr]
  rfl

/-- Witness for C10: a constant cost oracle stuck at the sentinel value
never improves, so training hands back the initial parameters. -/
theorem trainer_init_spec_witness :
    (sgd_train (⟨3, 5, 100, 0, 0, 100, 1, 0, false⟩ : SGDConfig ℚ)
        (fun x => x) (fun _ _ => (10 : ℚ) ^ 100) (fun _ : Unit => fun _ => [])
        [] (fun _ => false) (fun _ => none) [[1, 2]]).1.params = [[1, 2]] := by
  exact (trainer_init_spec (⟨3, 5, 100, 0, 0, 100, 1, 0, false⟩ : SGDConfig ℚ)
    (fun x => x) (fun _ _ => (10 : ℚ) ^ 100) (fun _ : Unit => fun _ => [])
    [] (fun _ => false) (fun _ => none) [[1, 2]]
    (fun i p => by norm_num)).2.2.2

/-! ## C6: when `PatienceElapsed` fires in the `SGD.train` loop -/

/-- An `sgdEvalPhase` either exits (interrupt with an empty event list, or
patience with exactly its own event) or continues with a trace free of
patience events. -/
lemma sgdEvalPhase_trace (cfg : SGDConfig α) (f_valid : ℕ → List (List α) → α)
    (intEval : ℕ → Bool) (i : ℕ) (s : SGDState α) :
    (match sgdEvalPhase cfg f_valid intEval i s with
      | Sum.inl out =>
          (out.2.1 = ExitReason.interrupted i ∧ out.2.2 = [])
          ∨ (out.2.1 = ExitReason.patienceElapsed i ∧
              out.2.2 = [(i, EvalSignal.patienceElapsed)])
      | Sum.inr (_, tr0) =>
          ∀ e ∈ tr0, e.2 ≠ EvalSignal.patienceElapsed) := by
  simp only [sgdEvalPhase]
  split_ifs with h1 h2
  · exact Or.inl ⟨rfl, by trivial⟩
  · rcases hsig : (evaluate cfg.patience cfg.min_improvement (i : ℤ)
      (f_valid i s.params) s.params s.tracker).2 <;> simp only [hsig]
    · intro e he
      simp only [List.mem_singleton] at he
      subst he
      simp
    · intro e he
      simp only [List.mem_singleton] at he
      subst he
      simp
    · exact Or.inr (by constructor <;> trivial)
  · intro e he
    simp at he

/-- In any `SGD.train` loop run, a `PatienceElapsed` exit carries its
event as the final element of the evaluate trace with no earlier patience
event, and a run that does not exit on patience has no patience event at
all. -/
lemma sgdLoop_patience_trace (cfg : SGDConfig α) (sqrtFn : α → α)
    (f_valid : ℕ → List (List α) → α)
    (f_grad : β → List (List α) → List (List α)) (batches : List β)
    (intEval : ℕ → Bool) (intPass : ℕ → Option ℕ) :
    ∀ (fuel i : ℕ) (s : SGDState α),
      (∀ j, (sgdLoop cfg sqrtFn f_valid f_grad batches intEval intPass
          fuel i s).2.1 = ExitReason.patienceElapsed j →
        ∃ pre, (sgdLoop cfg sqrtFn f_valid f_grad batches intEval intPass
            fuel i s).2.2 = pre ++ [(j, EvalSignal.patienceElapsed)]
          ∧ ∀ e ∈ pre, e.2 ≠ EvalSignal.patienceElapsed)
      ∧ ((∀ k, (sgdLoop cfg sqrtFn f_valid f_grad batches intEval intPass
          fuel i s).2.1 ≠ ExitReason.patienceElapsed k) →
        ∀ e ∈ (sgdLoop cfg sqrtFn f_valid f_grad batches intEval intPass
          fuel i s).2.2, e.2 ≠ EvalSignal.patienceElapsed) := by
  intro fuel
  induction fuel with
  | zero =>
      intro i s
      constructor
      · intro j hj
        exact absurd hj (by simp [sgdLoop])
      · intro _ e he
        simp [sgdLoop] at he
  | succ n ih =>
      intro i s
      have htr := sgdEvalPhase_trace cfg f_valid intEval i s
      simp only [sgdLoop]
      rcases hs : sgdEvalPhase cfg f_valid intEval i s with out | s1tr
      · rw [hs] at htr
        rcases htr with ⟨hr, ht⟩ | ⟨hr, ht⟩
      -- interrupted checkpoint
        · constructor
          · intro j hj
            rw [hr] at hj
            exact absurd hj (by simp)
          · intro _ e he
            rw [ht] at he
            simp at he
      -- patience exit
        · constructor
          · intro j hj
            rw [hr] at hj
            have hij : i = j := by
              simpa using hj
            subst hij
            exact ⟨[], by simpa using ht, by simp⟩
          · intro hk
            rw [hr] at hk
            exact absurd rfl (hk i)
      · obtain ⟨s1, tr0⟩ := s1tr
        rw [hs] at htr
        rcases hp : intPass i with _ | k
      -- continue into the recursive call
        · simp only [hp]
          obtain ⟨ih1, ih2⟩ := ih (i + 1)
            (learnPass cfg sqrtFn f_grad batches s1)
          constructor
          · intro j hj
            obtain ⟨pre, hpre, hclean⟩ := ih1 j hj
            refine ⟨tr0 ++ pre, by rw [hpre, List.append_assoc], ?_⟩
            intro e he
            rcases List.mem_append.mp he with he | he
            · exact htr e he
            · exact hclean e he
          · intro hk e he
            rcases List.mem_append.mp he with he | he
            · exact htr e he
            · exact ih2 hk e he
      -- pass interrupted
        · simp only [hp]
          constructor
          · intro j hj
            exact absurd hj (by simp)
          · intro _ e he
            exact htr e he

/-- C6, amended. `PatienceElapsed` fires at most once per run: a
patience exit at iteration `j` puts `(j, patienceElapsed)` as the final
evaluate event (no earlier one exists), any other exit produces no
patience event, and it fires at a checkpoint exactly when the raw
iteration distance `iteration − best_iteration` (post-update) exceeds
`patience` — patience counts raw iterations since the last improvement,
not non-improving validation checkpoints; the two coincide only when
`validation_frequency = 1`. -/
theorem patience_once_spec (cfg : SGDConfig α) (sqrtFn : α → α)
    (f_valid : ℕ → List (List α) → α)
    (f_grad : β → List (List α) → List (List α)) (batches : List β)
    (intEval : ℕ → Bool) (intPass : ℕ → Option ℕ)
    (fuel i : ℕ) (s : SGDState α) (it : ℤ) (c : α) (p : List (List α))
    (t : TrainerState α) :
    (∀ j, (sgdLoop cfg sqrtFn f_valid f_grad batches intEval intPass
        fuel i s).2.1 = ExitReason.patienceElapsed j →
      ∃ pre, (sgdLoop cfg sqrtFn f_valid f_grad batches intEval intPass
          fuel i s).2.2 = pre ++ [(j, EvalSignal.patienceElapsed)]
        ∧ ∀ e ∈ pre, e.2 ≠ EvalSignal.patienceElapsed)
    ∧ ((∀ k, (sgdLoop cfg sqrtFn f_valid f_grad batches intEval intPass
        fuel i s).2.1 ≠ ExitReason.patienceElapsed k) →
      ∀ e ∈ (sgdLoop cfg sqrtFn f_valid f_grad batches intEval intPass
        fuel i s).2.2, e.2 ≠ EvalSignal.patienceElapsed)
    ∧ ((evaluate cfg.patience cfg.min_improvement it c p t).2 =
        .patienceElapsed ↔
      it - (evaluate cfg.patience cfg.min_improvement it c p t).1.best_iter >
        cfg.patience) :=
  ⟨(sgdLoop_patience_trace cfg sqrtFn f_valid f_grad batches intEval intPass
      fuel i s).1,
    (sgdLoop_patience_trace cfg sqrtFn f_valid f_grad batches intEval intPass
      fuel i s).2,
    evaluate_patienceElapsed_iff cfg.patience cfg.min_improvement it c p t⟩

/-- Witness for C6's amended statement on a concrete run (patience 2,
validation every 3 iterations, never-improving costs after the first
checkpoint): the loop exits on patience at iteration 3 and that event
closes the trace. -/
theorem patience_once_spec_witness :
    ∃ pre, (sgdLoop (⟨3, 4, 2, 0, 0, 100, 1, 0, false⟩ : SGDConfig ℚ)
        (fun x => x) (fun _ _ => 1) (fun _ : Unit => fun _ => []) []
        (fun _ => false) (fun _ => none) 4 0
        ⟨[], trainer_init [], 1, []⟩).2.2 =
      pre ++ [(3, EvalSignal.patienceElapsed)]
      ∧ ∀ e ∈ pre, e.2 ≠ EvalSignal.patienceElapsed := by
  refine (patience_once_spec (⟨3, 4, 2, 0, 0, 100, 1, 0, false⟩ : SGDConfig ℚ)
    (fun x => x) (fun _ _ => 1) (fun _ : Unit => fun _ => []) []
    (fun _ => false) (fun _ => none) 4 0 ⟨[], trainer_init [], 1, []⟩
    0 0 [] (trainer_init [])).1 3 ?_
  norm_num [sgdLoop, sgdEvalPhase, evaluate, learnPass, sgdRun, trainer_init]

/-- Counterexample for C6 as stated: with the default
`validation_frequency = 3` and `patience = 2`, a run whose first
checkpoint improves and whose later checkpoints never improve raises
`PatienceElapsed` already at the first non-improving checkpoint
(iteration 3), not at the `patience + 1 = 3`-rd one — patience counts raw
iterations, not validation checkpoints. -/
theorem patience_checkpoint_counterexample :
    (sgd_train (⟨3, 4, 2, 0, 0, 100, 1, 0, false⟩ : SGDConfig ℚ) (fun x => x)
        (fun _ _ => 1) (fun _ : Unit => fun _ => []) [] (fun _ => false)
        (fun _ => none) []).2.1 = ExitReason.patienceElapsed 3
    ∧ (sgd_train (⟨3, 4, 2, 0, 0, 100, 1, 0, false⟩ : SGDConfig ℚ)
        (fun x => x) (fun _ _ => 1) (fun _ : Unit => fun _ => []) []
        (fun _ => false) (fun _ => none) []).2.2 =
      [(0, EvalSignal.improved), (3, EvalSignal.patienceElapsed)]
    ∧ List.countP (fun e => decide (e.2 ≠ EvalSignal.improved))
        [((0 : ℕ), EvalSignal.improved), (3, EvalSignal.patienceElapsed)] = 1
    ∧ (1 : ℕ) ≠ 2 + 1 := by
  refine ⟨?_, ?_, by decide, by decide⟩ <;>
    norm_num [sgd_train, sgdLoop, sgdEvalPhase, evaluate, learnPass, sgdRun,
      trainer_init, update_params]

end Theanets
